import Mathlib

set_option maxHeartbeats 1000000
set_option maxRecDepth 100000

/-!
Shallow embedding of `src/src/lib.rs` of the `unbrackable-lib` crate:
a fluent password builder.  The struct `PasswordBuilder` holds an `i32`
length (embedded as `Int`; no arithmetic is performed on it, so the i32
range plays no role) and four boolean flags.  `build` composes an
alphabet by string concatenation and draws `length` characters from it
using `rand::thread_rng().gen_range(0..alphabet.len())`.

The random source is embedded as a function `rng : Nat → Nat` giving the
raw draw of each loop iteration; `gen_range(0..n)` is embedded as
`rng i % n`, which ranges over exactly the interval `[0, n)` that
`gen_range` returns values in (for `n > 0`; the alphabet is proved to
be never empty).
-/

/-- The builder struct of `lib.rs` lines 3–10.  The crate also derives
`Default` (which would zero every field), but the only call site
`Self::default()` in `new` resolves to the inherent `fn default` of
lines 13–21, which is the one embedded below. -/
structure PasswordBuilder where
  length : Int
  include_special_characters : Bool
  use_numbers : Bool
  use_uppercase : Bool
  use_underlines : Bool
deriving DecidableEq

namespace PasswordBuilder

/-- The inherent `fn default` (lines 13–21): length 20, all flags false. -/
def default : PasswordBuilder :=
  { length := 20
    include_special_characters := false
    use_numbers := false
    use_uppercase := false
    use_underlines := false }

/-- `pub fn new()` (lines 36–38): `Self::default()`. -/
def new : PasswordBuilder := default

/-- The base alphabet string of line 55. -/
def base_chars : List Char := "qwertyuiopasdfghjklzxcvbnm".toList

/-- The special-character string of line 58
(`!"$#%'()*+`-./:;<=>?@[\]^{|}~&`; braces and the apostrophe are
written with `\x` escapes, denoting the same characters). -/
def special_chars : List Char :=
  "!\"$#%\x27()*+`-./:;<=>?@[\\]^\x7b|\x7d~&".toList

/-- The digit string of line 61. -/
def number_chars : List Char := "1234567890".toList

/-- The uppercase string of line 64. -/
def upper_chars : List Char := "QWERTYUIOPASDFGHJKLZXCVBNM".toList

/-- The underscore string of line 67. -/
def underline_chars : List Char := "_".toList

/-- The `allowed_characters` string assembled by `build` in lines 55–68:
the lowercase base, then each optional block appended when its flag is
set, in the fixed source order. -/
def allowed_characters (b : PasswordBuilder) : List Char :=
  base_chars
    ++ (if b.include_special_characters then special_chars else [])
    ++ (if b.use_numbers then number_chars else [])
    ++ (if b.use_uppercase then upper_chars else [])
    ++ (if b.use_underlines then underline_chars else [])

/-- `pub fn build(self)` (lines 52–78).  The Rust loop `for _ in
0..self.length` runs `max(length, 0)` = `length.toNat` iterations; each
iteration draws `gen_range(0..allowed_characters.len())`, embedded as
`rng i % len`, and pushes the character at that index.  `getD` carries
the default `'q'`; the index is always in range because the alphabet is
never empty, so the default is never consulted (Rust indexes the byte
slice, which cannot go out of bounds for the same reason). -/
def build (b : PasswordBuilder) (rng : Nat → Nat) : List Char :=
  (List.range b.length.toNat).map fun i =>
    let ac := allowed_characters b
    ac.getD (rng i % ac.length) 'q'

/-- `pub fn set_length` (lines 88–91): stores the argument unchecked. -/
def set_length (b : PasswordBuilder) (length : Int) : PasswordBuilder :=
  { b with length := length }

/-- `pub fn include_special_characters` (lines 101–104); primed because
the field of the same name occupies the Lean name. -/
def include_special_characters' (b : PasswordBuilder) : PasswordBuilder :=
  { b with include_special_characters := true }

/-- `pub fn use_numbers` (lines 114–117). -/
def use_numbers' (b : PasswordBuilder) : PasswordBuilder :=
  { b with use_numbers := true }

/-- `pub fn use_uppercase` (lines 127–130). -/
def use_uppercase' (b : PasswordBuilder) : PasswordBuilder :=
  { b with use_uppercase := true }

/-- `pub fn use_underlines` (lines 140–143). -/
def use_underlines' (b : PasswordBuilder) : PasswordBuilder :=
  { b with use_underlines := true }

end PasswordBuilder

/-- The alphabet always starts with the 26-character lowercase base, so
its length is at least 26. -/
lemma allowed_characters_length_ge (b : PasswordBuilder) :
    26 ≤ (b.allowed_characters).length := by
  simp only [PasswordBuilder.allowed_characters, List.length_append]
  have hbase : PasswordBuilder.base_chars.length = 26 := by decide
  omega

lemma allowed_characters_pos (b : PasswordBuilder) :
    0 < (b.allowed_characters).length :=
  lt_of_lt_of_le (by norm_num) (allowed_characters_length_ge b)

/-- Every character `build` pushes is read off the alphabet at an
in-range index, hence is a member of the alphabet. -/
lemma mem_allowed_of_mem_build {b : PasswordBuilder} {rng : Nat → Nat}
    {c : Char} (h : c ∈ b.build rng) : c ∈ b.allowed_characters := by
  simp only [PasswordBuilder.build, List.mem_map, List.mem_range] at h
  obtain ⟨i, -, rfl⟩ := h
  have hlt : rng i % (b.allowed_characters).length <
      (b.allowed_characters).length :=
    Nat.mod_lt _ (allowed_characters_pos b)
  rw [List.getD_eq_getElem _ _ hlt]
  exact List.getElem_mem hlt

/-- C1.  For every configuration (any length, any flags) and any random
stream, `build` returns exactly `max(length, 0)` characters. -/
theorem build_length_eq_max_length_zero (b : PasswordBuilder) (rng : Nat → Nat) :
    (b.build rng).length = (max b.length 0).toNat := by
  simp only [PasswordBuilder.build, List.length_map, List.length_range]
  omega

/-- C2.  For every configuration and random stream, every character of
the built password belongs to the alphabet composed in the fixed source
order (lowercase base, then specials, digits, uppercase and underscore
as their flags dictate). -/
theorem build_mem_allowed_characters (b : PasswordBuilder) (rng : Nat → Nat)
    (c : Char) (h : c ∈ b.build rng) : c ∈ b.allowed_characters :=
  mem_allowed_of_mem_build h

theorem build_mem_allowed_characters_witness :
    ('q' ∈ PasswordBuilder.new.build (fun _ => 0)) ∧
      'q' ∈ PasswordBuilder.new.allowed_characters :=
  ⟨by decide, build_mem_allowed_characters PasswordBuilder.new (fun _ => 0) 'q'
    (by decide)⟩

/-- C3 counterexample.  The special-character string of line 58 does
not have 31 characters (it has 30), so the claim as stated is false. -/
theorem special_chars_length_ne_31 :
    PasswordBuilder.special_chars.length ≠ 31 := by decide

/-- C3 (amended).  The fixed special-character set appended when
`include_special_characters` is enabled is exactly the 30-character
string of line 58, with no character repeated. -/
theorem special_chars_length_30_nodup :
    PasswordBuilder.special_chars.length = 30 ∧
      PasswordBuilder.special_chars.Nodup := by
  constructor <;> decide

/-- C5.  `new` returns the configuration with length 20 and all four
flags false, and building it (with any random stream) yields only
characters of the 26-letter lowercase base. -/
theorem new_defaults_and_lowercase_only :
    PasswordBuilder.new =
      { length := 20
        include_special_characters := false
        use_numbers := false
        use_uppercase := false
        use_underlines := false } ∧
    ∀ (rng : Nat → Nat) (c : Char),
      c ∈ PasswordBuilder.new.build rng → c ∈ PasswordBuilder.base_chars := by
  refine ⟨rfl, fun rng c h => ?_⟩
  have := mem_allowed_of_mem_build h
  simpa [PasswordBuilder.allowed_characters, PasswordBuilder.new,
    PasswordBuilder.default] using this

theorem new_defaults_and_lowercase_only_witness :
    ('q' ∈ PasswordBuilder.new.build (fun _ => 0)) ∧
      'q' ∈ PasswordBuilder.base_chars :=
  ⟨by decide, new_defaults_and_lowercase_only.2 (fun _ => 0) 'q' (by decide)⟩

/-- C6.  `set_length` stores any integer unvalidated (touching nothing
else), and whenever the stored length is ≤ 0, `build` returns the empty
string; `build` is total (no error value exists in the embedding, as no
error type exists in the component). -/
theorem set_length_unchecked_and_nonpos_builds_empty :
    (∀ (b : PasswordBuilder) (n : Int),
      (b.set_length n).length = n ∧
      (b.set_length n).include_special_characters = b.include_special_characters ∧
      (b.set_length n).use_numbers = b.use_numbers ∧
      (b.set_length n).use_uppercase = b.use_uppercase ∧
      (b.set_length n).use_underlines = b.use_underlines) ∧
    ∀ (b : PasswordBuilder) (rng : Nat → Nat),
      b.length ≤ 0 → b.build rng = [] := by
  refine ⟨fun b n => ⟨rfl, rfl, rfl, rfl, rfl⟩, fun b rng h => ?_⟩
  have : b.length.toNat = 0 := by omega
  simp [PasswordBuilder.build, this]

theorem set_length_unchecked_and_nonpos_builds_empty_witness :
    (PasswordBuilder.new.set_length (-5)).length = -5 ∧
      (PasswordBuilder.new.set_length (-5)).build (fun _ => 0) = [] :=
  ⟨(set_length_unchecked_and_nonpos_builds_empty.1 PasswordBuilder.new (-5)).1,
    set_length_unchecked_and_nonpos_builds_empty.2
      (PasswordBuilder.new.set_length (-5)) (fun _ => 0) (by decide)⟩

/-- C7.  For every configuration the composed alphabet is non-empty (it
always starts with the 26-letter lowercase base), so the index drawn in
`[0, alphabet.length)` is always over a non-empty range: reducing any
raw draw modulo the alphabet length is a modulo by a positive number
and lands strictly below the length. -/
theorem allowed_characters_never_empty (b : PasswordBuilder) :
    26 ≤ (b.allowed_characters).length ∧
    0 < (b.allowed_characters).length ∧
    ∀ x : Nat, x % (b.allowed_characters).length < (b.allowed_characters).length :=
  ⟨allowed_characters_length_ge b, allowed_characters_pos b,
    fun _ => Nat.mod_lt _ (allowed_characters_pos b)⟩

/-- The configuration of the concrete scenario of the spec:
`create().withLength(1000)` with all four flags enabled. -/
def fullConfig : PasswordBuilder :=
  ((((PasswordBuilder.new.set_length 1000).include_special_characters').use_numbers').use_uppercase').use_underlines'

/-- C4 counterexample.  With all four flags enabled the composed
alphabet does not contain 94 distinct characters: deduplicating it
leaves 93, because the special block has 30 characters, not 31. -/
theorem full_alphabet_card_ne_94 :
    (fullConfig.allowed_characters).dedup.length ≠ 94 := by decide

/-- C4 (amended).  With all four flags enabled the composed alphabet
consists of exactly 93 characters, none repeated, and a build of length
1000 on that configuration returns 1000 characters all drawn from it. -/
theorem full_alphabet_93_unique_and_build_1000 :
    fullConfig.allowed_characters.length = 93 ∧
    fullConfig.allowed_characters.Nodup ∧
    ∀ rng : Nat → Nat,
      (fullConfig.build rng).length = 1000 ∧
      ∀ c ∈ fullConfig.build rng, c ∈ fullConfig.allowed_characters := by
  refine ⟨by decide, by decide, fun rng =>
    ⟨?_, fun c h => mem_allowed_of_mem_build h⟩⟩
  simp only [PasswordBuilder.build, List.length_map, List.length_range]
  decide

theorem full_alphabet_build_1000_witness :
    ('q' ∈ fullConfig.build (fun _ => 0)) ∧
      'q' ∈ fullConfig.allowed_characters :=
  ⟨by decide,
    (full_alphabet_93_unique_and_build_1000.2.2 (fun _ => 0)).2 'q' (by decide)⟩

/-- C8.  Every mutator is idempotent: applying the same mutator twice
to any starting configuration yields the same configuration as applying
it once (the embedding is pure, so there is no effect beyond the
returned configuration). -/
theorem mutators_idempotent (b : PasswordBuilder) (n : Int) :
    (b.set_length n).set_length n = b.set_length n ∧
    b.include_special_characters'.include_special_characters' =
      b.include_special_characters' ∧
    b.use_numbers'.use_numbers' = b.use_numbers' ∧
    b.use_uppercase'.use_uppercase' = b.use_uppercase' ∧
    b.use_underlines'.use_underlines' = b.use_underlines' := by
  cases b
  exact ⟨rfl, rfl, rfl, rfl, rfl⟩

/-- C9.  The four flag mutators commute pairwise on every starting
configuration, so either application order yields the same
configuration and hence (illustrated on the numbers/uppercase pair) the
same composed alphabet. -/
theorem flag_mutators_commute (b : PasswordBuilder) :
    b.include_special_characters'.use_numbers' =
      b.use_numbers'.include_special_characters' ∧
    b.include_special_characters'.use_uppercase' =
      b.use_uppercase'.include_special_characters' ∧
    b.include_special_characters'.use_underlines' =
      b.use_underlines'.include_special_characters' ∧
    b.use_numbers'.use_uppercase' = b.use_uppercase'.use_numbers' ∧
    b.use_numbers'.use_underlines' = b.use_underlines'.use_numbers' ∧
    b.use_uppercase'.use_underlines' = b.use_underlines'.use_uppercase' ∧
    (b.use_numbers'.use_uppercase').allowed_characters =
      (b.use_uppercase'.use_numbers').allowed_characters := by
  cases b
  exact ⟨rfl, rfl, rfl, rfl, rfl, rfl, rfl⟩

/-- UTF-8 encoding of one character as its list of byte values; this is
how Rust's `String::as_bytes` exposes a string, as the concatenation of
the UTF-8 bytes of its characters. -/
def utf8Bytes (c : Char) : List Nat :=
  let n := c.toNat
  if n < 0x80 then [n]
  else if n < 0x800 then [0xC0 ||| (n >>> 6), 0x80 ||| (n &&& 0x3F)]
  else if n < 0x10000 then
    [0xE0 ||| (n >>> 12), 0x80 ||| ((n >>> 6) &&& 0x3F), 0x80 ||| (n &&& 0x3F)]
  else
    [0xF0 ||| (n >>> 18), 0x80 ||| ((n >>> 12) &&& 0x3F),
      0x80 ||| ((n >>> 6) &&& 0x3F), 0x80 ||| (n &&& 0x3F)]

/-- The UTF-8 byte values of a list of characters, in order. -/
def stringBytes (l : List Char) : List Nat := l.flatMap utf8Bytes

/-- Every character of every composed alphabet is ASCII. -/
lemma allowed_characters_ascii (b : PasswordBuilder) :
    ∀ c ∈ b.allowed_characters, c.toNat < 128 := by
  intro c hc
  have hbase : ∀ c ∈ PasswordBuilder.base_chars, c.toNat < 128 := by decide
  have hspec : ∀ c ∈ PasswordBuilder.special_chars, c.toNat < 128 := by decide
  have hnum : ∀ c ∈ PasswordBuilder.number_chars, c.toNat < 128 := by decide
  have hupper : ∀ c ∈ PasswordBuilder.upper_chars, c.toNat < 128 := by decide
  have hund : ∀ c ∈ PasswordBuilder.underline_chars, c.toNat < 128 := by decide
  simp only [PasswordBuilder.allowed_characters, List.mem_append] at hc
  rcases hc with ((((h | h) | h) | h) | h)
  · exact hbase c h
  · revert h
    split <;> intro h
    · exact hspec c h
    · exact (List.not_mem_nil c h).elim
  · revert h
    split <;> intro h
    · exact hnum c h
    · exact (List.not_mem_nil c h).elim
  · revert h
    split <;> intro h
    · exact hupper c h
    · exact (List.not_mem_nil c h).elim
  · revert h
    split <;> intro h
    · exact hund c h
    · exact (List.not_mem_nil c h).elim

/-- On an all-ASCII character list, UTF-8 encoding is one byte per
character: the byte list is the pointwise code of the character list. -/
lemma stringBytes_of_ascii :
    ∀ l : List Char, (∀ c ∈ l, c.toNat < 128) →
      stringBytes l = l.map Char.toNat := by
  intro l h
  induction l with
  | nil => rfl
  | cons a t ih =>
    have ha : a.toNat < 128 := h a (List.mem_cons_self a t)
    have ht : ∀ c ∈ t, c.toNat < 128 := fun c hc => h c (List.mem_cons_of_mem a hc)
    simp only [stringBytes, List.flatMap_cons, List.map_cons] at ih ⊢
    rw [ih ht, utf8Bytes, if_pos ha]
    rfl

/-- C10.  Every composed alphabet is pure ASCII: each character codes
below 128, its UTF-8 byte list has one byte per character, reading the
byte at position `i` and casting it back to a character recovers the
`i`-th character of the alphabet, and the built password's byte length
equals its character count. -/
theorem alphabet_ascii_byte_indexing (b : PasswordBuilder) :
    (∀ c ∈ b.allowed_characters, c.toNat < 128) ∧
    (stringBytes b.allowed_characters).length = (b.allowed_characters).length ∧
    (∀ i, i < (stringBytes b.allowed_characters).length →
      Char.ofNat ((stringBytes b.allowed_characters).getD i 0) =
        (b.allowed_characters).getD i 'q') ∧
    ∀ rng : Nat → Nat,
      (stringBytes (b.build rng)).length = (b.build rng).length := by
  have hascii := allowed_characters_ascii b
  have he : stringBytes b.allowed_characters =
      (b.allowed_characters).map Char.toNat :=
    stringBytes_of_ascii _ hascii
  refine ⟨hascii, by simp [he], fun i hi => ?_, fun rng => ?_⟩
  · rw [he] at hi ⊢
    rw [List.length_map] at hi
    rw [List.getD_eq_getElem _ _ (by simpa using hi),
      List.getD_eq_getElem _ _ hi, List.getElem_map, Char.ofNat_toNat]
  · have hb : ∀ c ∈ b.build rng, c.toNat < 128 := fun c hc =>
      hascii c (mem_allowed_of_mem_build hc)
    rw [stringBytes_of_ascii _ hb, List.length_map]

theorem alphabet_ascii_byte_indexing_witness :
    ('q'.toNat < 128) ∧
    (0 < (stringBytes PasswordBuilder.new.allowed_characters).length) ∧
    Char.ofNat ((stringBytes PasswordBuilder.new.allowed_characters).getD 0 0) =
      (PasswordBuilder.new.allowed_characters).getD 0 'q' :=
  ⟨(alphabet_ascii_byte_indexing PasswordBuilder.new).1 'q' (by decide),
    by decide,
    (alphabet_ascii_byte_indexing PasswordBuilder.new).2.2.1 0 (by decide)⟩
